import Mathlib

/-!
Shallow embedding of the syslog server library (`server.go`) and proofs
about its packet decoder, handler-dispatch pipeline and shutdown routine.

Raw packets are modelled as `List Char` (Go converts the read bytes to a
string before all parsing steps).  Go standard-library helpers used by the
source (`unicode` classifiers, `strconv.Atoi`, `strings`/`bytes` searching
and trimming, `time.Parse`) are modelled as executable Lean functions; the
Unicode character classes are modelled on the ASCII range, which covers
every byte the decoder's heuristics inspect.
-/

namespace Syslog

/-- ASCII-range model of Go `unicode.IsLetter`. -/
def goIsLetter (c : Char) : Bool :=
  ('a' ≤ c && c ≤ 'z') || ('A' ≤ c && c ≤ 'Z')

/-- ASCII-range model of Go `unicode.IsNumber`. -/
def goIsNumber (c : Char) : Bool :=
  '0' ≤ c && c ≤ '9'

/-- ASCII-range model of Go `unicode.IsSpace`. -/
def goIsSpace (c : Char) : Bool :=
  c = ' ' || c = '\t' || c = '\n' || c = '\x0b' || c = '\x0c' || c = '\r'

/-- `server.go:86-88`: `isNulCrLf` — true on NUL, CR and LF. -/
def isNulCrLf (c : Char) : Bool :=
  c = '\x00' || c = '\r' || c = '\n'

/-- The rune is a letter, a number, or a member of the configured
allowed-rune set (`s.tagrunes`, a set of extra runes, modelled as a list). -/
def isAlnumOk (allowed : List Char) (c : Char) : Bool :=
  goIsLetter c || goIsNumber c || allowed.contains c

/-- `server.go:82-84`: `isNotAlnum` — the strict-split delimiter test. -/
def isNotAlnum (allowed : List Char) (c : Char) : Bool :=
  !(isAlnumOk allowed c)

/-- Model of `strings.IndexFunc` / `bytes.IndexByte` (which return `-1`
when no element satisfies the predicate; `none` plays the role of `-1`). -/
def indexFunc (q : Char → Bool) : List Char → Option Nat
  | [] => none
  | c :: t => if q c then some 0 else (indexFunc q t).map (· + 1)

/-- Model of `bytes.TrimRightFunc` / `strings.TrimRightFunc`: remove the
longest suffix whose runes all satisfy `p`. -/
def trimRightFun (p : Char → Bool) (l : List Char) : List Char :=
  (l.reverse.dropWhile p).reverse

/-- Model of `strings.TrimLeftFunc`. -/
def trimLeftFun (p : Char → Bool) (l : List Char) : List Char :=
  l.dropWhile p

/-- Model of `strings.TrimFunc` (trim both ends). -/
def trimFun (p : Char → Bool) (l : List Char) : List Char :=
  trimRightFun p (l.dropWhile p)

/-- Value of a list of decimal digit characters. -/
def digitsVal (l : List Char) : Nat :=
  l.foldl (fun a c => 10 * a + (c.toNat - 48)) 0

/-- Model of Go `strconv.Atoi`: optional single leading `+`/`-` sign
followed by at least one decimal digit and nothing else.  (Overflow cannot
occur for the at-most-3-byte tokens the decoder feeds it.) -/
def goAtoi (s : List Char) : Option Int :=
  match s with
  | [] => none
  | c :: rest =>
    if c = '-' || c = '+' then
      if rest.isEmpty || !(rest.all Char.isDigit) then none
      else some ((if c = '-' then -1 else 1) * (digitsVal rest : Int))
    else
      if !(s.all Char.isDigit) then none
      else some (digitsVal s : Int)

/-- Model of Go `time.Time` restricted to the fields `time.Parse` can set
for the two layouts the decoder uses: a proleptic-Gregorian wall-clock
date/time plus a zone offset in minutes.  (`time.Parse` with the legacy
layout leaves the year at 0 and the zone at UTC.) -/
structure GoTime where
  year : Nat
  month : Nat
  day : Nat
  hour : Nat
  minute : Nat
  second : Nat
  offMin : Int
deriving DecidableEq, Repr

/-- Gregorian leap-year test (as in Go `time.isLeap`). -/
def leapYear (y : Nat) : Bool :=
  (y % 4 = 0 && y % 100 ≠ 0) || y % 400 = 0

/-- Days in a month (as in Go `time.daysIn`). -/
def daysIn (mo : Nat) (y : Nat) : Nat :=
  if mo = 2 then (if leapYear y then 29 else 28)
  else [31, 28, 31, 30, 31, 30, 31, 31, 30, 31, 30, 31].getD (mo - 1) 0

/-- Days in the months strictly before `mo` of year `y`. -/
def daysBeforeMonth (mo : Nat) (y : Nat) : Nat :=
  (((List.range (mo - 1)).map fun i => daysIn (i + 1) y)).sum

/-- Number of leap years in `[1, n]`. -/
def leapsUpto (n : Nat) : Nat :=
  n / 4 - n / 100 + n / 400

/-- Day number of a date in the proleptic Gregorian calendar, counted from
year 0, January 1 (year 0 is a leap year). -/
def dayNumber (t : GoTime) : Nat :=
  t.year * 365 + (if t.year = 0 then 0 else 1 + leapsUpto (t.year - 1)) +
    daysBeforeMonth t.month t.year + (t.day - 1)

/-- Absolute instant in seconds (offset-adjusted), for comparing `GoTime`s
as instants the way Go compares `time.Time`s. -/
def absSec (t : GoTime) : Int :=
  (dayNumber t : Int) * 86400 + t.hour * 3600 + t.minute * 60 + t.second -
    t.offMin * 60

/-- Model of Go `time.Time.IsZero`: the instant equals January 1 of year 1,
00:00:00 UTC. -/
def tsIsZero (t : GoTime) : Bool :=
  absSec t = absSec ⟨1, 1, 1, 0, 0, 0, 0⟩

/-- Model of Go `time` package `getnum`: one or two decimal digits
(exactly two when `fixed`). -/
def getnum (fixed : Bool) (s : List Char) : Option (Nat × List Char) :=
  match s with
  | [] => none
  | [c1] =>
    if c1.isDigit && !fixed then some (c1.toNat - 48, []) else none
  | c1 :: c2 :: rest =>
    if c1.isDigit then
      if c2.isDigit then some (10 * (c1.toNat - 48) + (c2.toNat - 48), rest)
      else if fixed then none
      else some (c1.toNat - 48, c2 :: rest)
    else none

/-- Consume one expected literal character. -/
def expectChar (c : Char) (s : List Char) : Option (List Char) :=
  match s with
  | x :: t => if x = c then some t else none
  | [] => none

/-- Model of the byte comparison in Go `time`'s `match`: equal, or both
ASCII letters differing only in case. -/
def goCharMatch (c1 c2 : Char) : Bool :=
  c1 = c2 ||
    (let a := c1.toNat ||| 32
     let b := c2.toNat ||| 32
     a = b && 97 ≤ a && a ≤ 122)

/-- Case-insensitive match of two equal-length rune lists (Go `time.match`). -/
def matchCI (a b : List Char) : Bool :=
  a.length = b.length && (a.zip b).all fun p => goCharMatch p.1 p.2

def monthAbbrevs : List (List Char) :=
  [['J','a','n'], ['F','e','b'], ['M','a','r'], ['A','p','r'],
   ['M','a','y'], ['J','u','n'], ['J','u','l'], ['A','u','g'],
   ['S','e','p'], ['O','c','t'], ['N','o','v'], ['D','e','c']]

def lookupMonthAux (i : Nat) (tab : List (List Char)) (s : List Char) :
    Option (Nat × List Char) :=
  match tab with
  | [] => none
  | a :: t =>
    if 3 ≤ s.length && matchCI (s.take 3) a then some (i, s.drop 3)
    else lookupMonthAux (i + 1) t s

/-- Model of Go `time.lookup` over the short month names (case-insensitive,
three bytes); yields the 1-based month and the unconsumed remainder. -/
def lookupMonth (s : List Char) : Option (Nat × List Char) :=
  lookupMonthAux 1 monthAbbrevs s

/-- The fractional-second special case of Go `time.parse` (shared by the
RFC 3339 fast path): right after the seconds field, if the remaining
value starts with `.` or `,` followed by at least one digit — and the
layout has no fractional-second chunk, which holds for both layouts the
decoder uses — the separator and *all* following digits are consumed
(digits beyond nine still consumed; the nanosecond value is not
modelled).  Otherwise the value is left untouched. -/
def skipFraction (s : List Char) : List Char :=
  match s with
  | c :: d :: rest =>
    if (c = '.' || c = ',') && d.isDigit then (d :: rest).dropWhile Char.isDigit
    else s
  | _ => s

/-- Model of Go `time.Parse("Jan _2 15:04:05", ·)` (`server.go:154-155`):
month abbreviation, literal space, `_2` day (optional extra space then one
or two digits), literal space, 1-2 digit hour, `:`, 2-digit minute, `:`,
2-digit second, then an optional fractional second (`skipFraction` — Go's
parse accepts a trailing `.`/`,` fraction after the seconds even though
the layout has none); the whole value must be consumed, the field ranges
are checked, and the year defaults to 0 at zone UTC. -/
def parseStamp (s : List Char) : Option GoTime := do
  let (mo, r1) ← lookupMonth s
  let r2 ← expectChar ' ' r1
  let r2b := match r2 with
    | ' ' :: t => t
    | _ => r2
  let (day, r3) ← getnum false r2b
  let r4 ← expectChar ' ' r3
  let (hour, r5) ← getnum false r4
  let r6 ← expectChar ':' r5
  let (minute, r7) ← getnum true r6
  let r8 ← expectChar ':' r7
  let (second, r9) ← getnum true r8
  let r10 := skipFraction r9
  if 24 ≤ hour || 60 ≤ minute || 60 ≤ second then none
  else if !r10.isEmpty then none
  else if day < 1 || daysIn mo 0 < day then none
  else some ⟨0, mo, day, hour, minute, second, 0⟩

/-- Go `time` `stdLongYear`: exactly four decimal digits. -/
def getnum4 (s : List Char) : Option (Nat × List Char) :=
  match s with
  | a :: b :: c :: d :: rest =>
    if a.isDigit && b.isDigit && c.isDigit && d.isDigit then
      some (1000 * (a.toNat - 48) + 100 * (b.toNat - 48) +
        10 * (c.toNat - 48) + (d.toNat - 48), rest)
    else none
  | _ => none

/-- Go `time` `stdISO8601ColonTZ` (the `Z07:00` layout chunk): either a
single `Z` (UTC), or a sign, two digit hours, `:`, two digit minutes.
As in Go's general parse path, the offset fields are *not* range
checked.  Yields the zone offset in minutes and the remainder. -/
def parseZoneColon (s : List Char) : Option (Int × List Char) :=
  match s with
  | 'Z' :: rest => some (0, rest)
  | sg :: h1 :: h2 :: ':' :: m1 :: m2 :: rest =>
    if (sg = '+' || sg = '-') && h1.isDigit && h2.isDigit &&
        m1.isDigit && m2.isDigit then
      let hr := 10 * (h1.toNat - 48) + (h2.toNat - 48)
      let mm := 10 * (m1.toNat - 48) + (m2.toNat - 48)
      some ((if sg = '-' then -1 else 1) * ((hr : Int) * 60 + mm), rest)
    else none
  | _ => none

/-- Model of Go `time.Parse(time.RFC3339, ·)` (`server.go:146`),
implemented as Go's general parse of the layout
`2006-01-02T15:04:05Z07:00`: 4-digit year, `-`, 2-digit month, `-`,
2-digit day, `T`, 1-2 digit hour, `:`, 2-digit minute, `:`, 2-digit
second, optional fractional second (`skipFraction`), then `Z` or
`±hh:mm`; the whole value must be consumed and month/day/hour/min/sec
ranges are checked (zone offsets are not, as in Go's general path).
Go's RFC 3339 fast path accepts a subset of these values with equal
results, so `time.Parse`'s acceptance coincides with this function. -/
def parseRFC3339go (s : List Char) : Option GoTime := do
  let (y, r1) ← getnum4 s
  let r2 ← expectChar '-' r1
  let (mo, r3) ← getnum true r2
  let r4 ← expectChar '-' r3
  let (day, r5) ← getnum true r4
  let r6 ← expectChar 'T' r5
  let (hour, r7) ← getnum false r6
  let r8 ← expectChar ':' r7
  let (minute, r9) ← getnum true r8
  let r10 ← expectChar ':' r9
  let (second, r11) ← getnum true r10
  let r12 := skipFraction r11
  let (offMin, r13) ← parseZoneColon r12
  if 24 ≤ hour || 60 ≤ minute || 60 ≤ second then none
  else if mo < 1 || 12 < mo then none
  else if day < 1 || daysIn mo y < day then none
  else if !r13.isEmpty then none
  else some ⟨y, mo, day, hour, minute, second, offMin⟩

/-- Opaque model of a network endpoint identifier (`net.Addr`). -/
abbrev Addr : Type := Nat

/-- Modelled from the spec: the `Message` record (declared outside
`server.go`; spec §3 lists its fields).  `parsedTimestamp` and `hostname`
are optional — absent when header parsing fails; the other fields are set
on every decode.  Field names follow the uses in `server.go`. -/
structure Message where
  Source : Addr
  Time : GoTime
  Severity : Nat
  Facility : Nat
  Timestamp : Option GoTime
  Hostname : Option (List Char)
  Tag : List Char
  Content : List Char
  Tag1 : List Char
  Content1 : List Char
deriving DecidableEq, Repr

/-- `server.go:123-136`: priority scanning.  On a packet starting with
`<`, find the first `>` in the rest (`bytes.IndexByte`); with `n = 1 + i`,
require `n > 1 && n < 5` (token of 1-3 bytes), then `strconv.Atoi` must
succeed with a non-negative value; the `<n>` prefix is then consumed.
Returns `some (priority, rest)` on recognition, `none` otherwise (default
priority 13, nothing consumed). -/
def scanPrio (pkt : List Char) : Option (Nat × List Char) :=
  match pkt with
  | '<' :: tl =>
    match indexFunc (fun c => c = '>') tl with
    | none => none
    | some i =>
      if 1 ≤ i ∧ i ≤ 3 then
        match goAtoi (tl.take i) with
        | some v => if 0 ≤ v then some (v.toNat, tl.drop (i + 1)) else none
        | none => none
      else none
  | _ => none

/-- The `(hasPrio, prio, pkt)` triple after the priority-scanning block. -/
def stripPrio (pkt : List Char) : Bool × Nat × List Char :=
  match scanPrio pkt with
  | some pr => (true, pr.1, pr.2)
  | none => (false, 13, pkt)

/-- `server.go:144`: the byte-position probe for layout A (RFC 5424-ish):
`hasPrio && len(pkt) >= 26 && pkt[25] == ' ' && pkt[15] != ' '`. -/
def probeA (hasPrio : Bool) (pkt : List Char) : Bool :=
  hasPrio && decide (26 ≤ pkt.length) && decide (pkt.get? 25 = some ' ')
    && decide (pkt.get? 15 ≠ some ' ')

/-- `server.go:152`: the byte-position probe for layout B (RFC 3164):
`hasPrio && len(pkt) >= 16 && pkt[15] == ' '`. -/
def probeB (hasPrio : Bool) (pkt : List Char) : Bool :=
  hasPrio && decide (16 ≤ pkt.length) && decide (pkt.get? 15 = some ' ')

/-- `server.go:146-147`: the first 25 bytes parse as RFC 3339 and the
result is not the zero time. -/
def parseAOk (pkt : List Char) : Bool :=
  match parseRFC3339go (pkt.take 25) with
  | some t => !tsIsZero t
  | none => false

/-- `server.go:155-156`: the first 15 bytes parse as `"Jan _2 15:04:05"`
and the result is not the zero time. -/
def parseBOk (pkt : List Char) : Bool :=
  match parseStamp (pkt.take 15) with
  | some t => !tsIsZero t
  | none => false

/-- `server.go:143-160`: the header-detection `if / else if` chain, as
written in the source: layout B's probe is evaluated only when layout A's
probe already failed.  Result is the `hostnameOffset` (0 = no header). -/
def headerOffset (hasPrio : Bool) (pkt : List Char) : Nat :=
  if probeA hasPrio pkt then (if parseAOk pkt then 26 else 0)
  else if probeB hasPrio pkt then (if parseBOk pkt then 16 else 0)
  else 0

/-- `server.go:162-172`: hostname extraction.  With offset 0 nothing is
extracted (the packet is only logged).  Otherwise scan for the next space
from the offset; if none is found (`n == hostnameOffset-1`) nothing is
set and the packet is left whole; else the hostname is the bytes between
offset and the space, the timestamp field receives `ts`, and the packet
is cut after the space.  NOTE: because of the `ts, err := time.Parse(...)`
short declarations at `server.go:146` and `:155`, the parsed header time
is assigned to a variable that shadows the outer `ts` of `server.go:141`;
the outer `ts` keeps the `time.Now()` wall-clock value, and that is what
`m.Timestamp = ts` stores here.  The embedding reproduces this: the
stored timestamp is the receiver's `now`, not the parsed header time. -/
def hostSplit (off : Nat) (now : GoTime) (pkt : List Char) :
    Option (List Char) × Option GoTime × List Char :=
  if off = 0 then (none, none, pkt)
  else
    match indexFunc (fun c => c = ' ') (pkt.drop off) with
    | none => (none, none, pkt)
    | some i =>
      (some ((pkt.drop off).take i), some now, pkt.drop (off + i + 1))

/-- `server.go:176-182`: strict tag/content split of the trimmed body at
the first rune failing `isAlnumOk` (via `strings.IndexFunc`). -/
def strictSplit (allowed : List Char) (msg : List Char) :
    List Char × List Char :=
  match indexFunc (isNotAlnum allowed) msg with
  | some n => (msg.take n, msg.drop n)
  | none => ([], msg)

/-- `server.go:183-190`: loose tag1/content1 split — trim surrounding
whitespace, split at the first whitespace rune, strip the leading
whitespace of the remainder. -/
def looseSplit (body : List Char) : List Char × List Char :=
  let msg := trimFun goIsSpace body
  match indexFunc goIsSpace msg with
  | some n => (msg.take n, trimLeftFun goIsSpace (msg.drop (n + 1)))
  | none => ([], msg)

/-- `server.go:137-192` after the priority block: header detection,
hostname extraction, trailing NUL/CR/LF trim and the two body splits,
assembled into the `Message`.  `now` models the receiver's wall clock
(the `time.Now()` calls at `server.go:121` and `:141`). -/
def finishDecode (now : GoTime) (src : Addr) (hasPrio : Bool) (prio : Nat)
    (pkt : List Char) (allowed : List Char) : Message :=
  let off := headerOffset hasPrio pkt
  let hh := hostSplit off now pkt
  let body := trimRightFun isNulCrLf hh.2.2
  { Source := src, Time := now,
    Severity := prio &&& 7, Facility := prio >>> 3,
    Timestamp := hh.2.1, Hostname := hh.1,
    Tag := (strictSplit allowed body).1,
    Content := (strictSplit allowed body).2,
    Tag1 := (looseSplit body).1,
    Content1 := (looseSplit body).2 }

/-- `server.go:117-192`: decoding one raw packet.  `none` models a panic:
on an empty packet the expression `pkt[0]` at `server.go:126` indexes out
of range.  Every non-empty packet decodes to a `Message`. -/
def decode (pkt : List Char) (now : GoTime) (src : Addr)
    (allowed : List Char) : Option Message :=
  match pkt with
  | [] => none
  | _ :: _ =>
    some (finishDecode now src (stripPrio pkt).1 (stripPrio pkt).2.1
      (stripPrio pkt).2.2 allowed)

/-- Modelled from the spec: the `Handler` interface (declared outside
`server.go`; spec §3: "receive a Message or a terminal nil sentinel,
return a Message or nil").  A Go nil `*Message` is `none`. -/
def Handler : Type := Option Message → Option Message

/-- `server.go:97-104`: `passToHandlers` — fold the message through the
chain, stopping as soon as a handler returns nil. -/
def passToHandlers (hs : List Handler) (m : Option Message) :
    Option Message :=
  match hs with
  | [] => m
  | h :: t =>
    match h m with
    | none => none
    | some m2 => passToHandlers t (some m2)

/-- Instrumented semantics of the `server.go:97-104` loop: the list of
arguments of the `h.Handle(m)` calls actually executed, in source order.
Handler `i` is invoked exactly when this list has an entry at index `i`,
and that entry is the value it received. -/
def handlerTrace (hs : List Handler) (m : Option Message) :
    List (Option Message) :=
  match hs with
  | [] => []
  | h :: t =>
    m :: match h m with
      | none => []
      | some m2 => handlerTrace t (some m2)

/-- Model of an open endpoint (`net.Listener`): the only behaviour
`Shutdown` observes is the result of `Close()` — `none` for success,
`some e` for an error value. -/
structure Conn where
  closeErr : Option Nat

/-- The server state the shutdown path manipulates (`server.go:16-22`):
the registered endpoints, the ordered handler list and the shutdown
flag.  (The fatal logger is modelled by collecting the values routed to
it; the allowed-rune set plays no role in `Shutdown`.) -/
structure Server where
  conns : List Conn
  handlers : List Handler
  shutdown : Bool

/-- `server.go:71-76`: close every registered endpoint in order; each
close failure is passed to `s.l.Fatalln` (collected here as the list of
reported errors, modelling a non-halting fatal sink). -/
def closeAll (cs : List Conn) : List Nat :=
  match cs with
  | [] => []
  | c :: t =>
    match c.closeErr with
    | some e => e :: closeAll t
    | none => closeAll t

/-- `server.go:69-80`: `Shutdown` — set the shutdown flag, close all
endpoints (collecting the errors routed to the fatal sink), send the nil
termination signal through the handler chain (`passToHandlers(nil)`,
whose executed calls are `handlerTrace s.handlers none`), then empty the
endpoint and handler lists.  Returns the new state, the errors reported
to the fatal sink, and the handler invocation trace. -/
def Shutdown (s : Server) : Server × List Nat × List (Option Message) :=
  let errs := closeAll s.conns
  let tr := handlerTrace s.handlers none
  ({ conns := [], handlers := [], shutdown := true }, errs, tr)

/-- Canonical decimal rendering of a natural number (for stating claims
about packets of the form `<p>rest` with `p` written in decimal). -/
def decimal (n : Nat) : List Char :=
  if h : n < 10 then [Char.ofNat (48 + n)]
  else decimal (n / 10) ++ [Char.ofNat (48 + n % 10)]
termination_by n
decreasing_by exact Nat.div_lt_self (by omega) (by omega)

/-! ## Helper lemmas -/

lemma indexFunc_eq_none_iff (q : Char → Bool) (l : List Char) :
    indexFunc q l = none ↔ ∀ c ∈ l, q c = false := by
  induction l with
  | nil => simp [indexFunc]
  | cons c t ih =>
    by_cases hc : q c
    · simp [indexFunc, hc]
    · simp only [indexFunc, hc, if_false, Option.map_eq_none']
      simp only [Bool.not_eq_true] at hc
      simp [ih, hc]

lemma indexFunc_append (q : Char → Bool) (l r : List Char) (x : Char)
    (hl : ∀ c ∈ l, q c = false) (hx : q x = true) :
    indexFunc q (l ++ x :: r) = some l.length := by
  induction l with
  | nil => simp [indexFunc, hx]
  | cons c t ih =>
    have hc : q c = false := hl c (List.mem_cons_self c t)
    have ht : ∀ c ∈ t, q c = false := fun c hc' => hl c (List.mem_cons_of_mem _ hc')
    simp [indexFunc, hc, ih ht]

lemma head?_dropWhile (p : Char → Bool) (l : List Char) (c : Char)
    (h : (l.dropWhile p).head? = some c) : p c = false := by
  induction l with
  | nil => simp [List.dropWhile] at h
  | cons a t ih =>
    by_cases ha : p a
    · rw [List.dropWhile_cons_of_pos ha] at h
      exact ih h
    · rw [List.dropWhile_cons_of_neg ha] at h
      simp only [List.head?_cons, Option.some.injEq] at h
      subst h
      simpa using ha

lemma trimRightFun_decomp (p : Char → Bool) (l : List Char) :
    ∃ suf, l = trimRightFun p l ++ suf ∧ (∀ c ∈ suf, p c = true) ∧
      (∀ c, (trimRightFun p l).getLast? = some c → p c = false) := by
  refine ⟨(l.reverse.takeWhile p).reverse, ?_, ?_, ?_⟩
  · have key : trimRightFun p l ++ (l.reverse.takeWhile p).reverse = l := by
      rw [trimRightFun, ← List.reverse_append, List.takeWhile_append_dropWhile,
        List.reverse_reverse]
    exact key.symm
  · intro c hc
    rw [List.mem_reverse] at hc
    exact List.mem_takeWhile_imp hc
  · intro c hc
    rw [trimRightFun, List.getLast?_reverse] at hc
    exact head?_dropWhile p l.reverse c hc

lemma strictSplit_of_exists (allowed : List Char) (msg : List Char)
    (h : ∃ c ∈ msg, isNotAlnum allowed c = true) :
    strictSplit allowed msg =
      (msg.takeWhile (isAlnumOk allowed), msg.dropWhile (isAlnumOk allowed)) := by
  induction msg with
  | nil => simp at h
  | cons c t ih =>
    by_cases hc : isNotAlnum allowed c = true
    · have hok : isAlnumOk allowed c = false := by
        simpa [isNotAlnum] using hc
      simp [strictSplit, indexFunc, hc, List.takeWhile_cons, List.dropWhile_cons, hok]
    · have hok : isAlnumOk allowed c = true := by
        simp only [isNotAlnum, Bool.not_eq_true'] at hc
        simpa [isNotAlnum] using hc
      have ht : ∃ c' ∈ t, isNotAlnum allowed c' = true := by
        rcases h with ⟨c', hc', hq⟩
        rcases List.mem_cons.mp hc' with rfl | hmem
        · exact absurd hq hc
        · exact ⟨c', hmem, hq⟩
      have hidx : ∃ n, indexFunc (isNotAlnum allowed) t = some n := by
        cases hif : indexFunc (isNotAlnum allowed) t with
        | none =>
          rcases ht with ⟨c', hc', hq⟩
          rw [indexFunc_eq_none_iff] at hif
          rw [hif c' hc'] at hq
          exact absurd hq (by simp)
        | some n => exact ⟨n, rfl⟩
      rcases hidx with ⟨n, hn⟩
      have hcne : isNotAlnum allowed c = false := by
        simpa using hc
      have hcons : indexFunc (isNotAlnum allowed) (c :: t) = some (n + 1) := by
        simp [indexFunc, hcne, hn]
      have ihs := ih ht
      rw [strictSplit, hn] at ihs
      rw [strictSplit, hcons, List.takeWhile_cons, List.dropWhile_cons]
      simp only [hok, if_true]
      simp only [Prod.mk.injEq] at ihs ⊢
      exact ⟨by simp [List.take_succ_cons, ihs.1],
        by simp [List.drop_succ_cons, ihs.2]⟩

lemma strictSplit_of_forall (allowed : List Char) (msg : List Char)
    (h : ∀ c ∈ msg, isNotAlnum allowed c = false) :
    strictSplit allowed msg = ([], msg) := by
  rw [strictSplit, (indexFunc_eq_none_iff _ _).mpr h]

lemma handlerTrace_length_le (hs : List Handler) (m : Option Message) :
    (handlerTrace hs m).length ≤ hs.length := by
  induction hs generalizing m with
  | nil => simp [handlerTrace]
  | cons h t ih =>
    rw [handlerTrace]
    cases hm : h m with
    | none => simp
    | some m2 =>
      simp only [List.length_cons, Nat.add_le_add_iff_right]
      exact ih (some m2)

lemma handlerTrace_head (h : Handler) (t : List Handler) (m : Option Message) :
    (handlerTrace (h :: t) m).get? 0 = some m := by
  rw [handlerTrace]
  rfl

lemma handlerTrace_succ (hs : List Handler) (m : Option Message)
    (j : Nat) (a b : Option Message)
    (ha : (handlerTrace hs m).get? j = some a)
    (hb : (handlerTrace hs m).get? (j + 1) = some b) :
    ∃ h, hs.get? j = some h ∧ h a = b ∧ b ≠ none := by
  induction hs generalizing m j with
  | nil => simp [handlerTrace] at ha
  | cons h t ih =>
    rw [handlerTrace] at ha hb
    cases hm : h m with
    | none =>
      rw [hm] at hb
      simp at hb
    | some m2 =>
      rw [hm] at ha hb
      cases j with
      | zero =>
        simp only [List.get?_cons_zero, Option.some.injEq] at ha
        subst ha
        simp only [List.get?_cons_succ] at hb
        cases t with
        | nil => simp [handlerTrace] at hb
        | cons h2 t2 =>
          rw [handlerTrace_head h2 t2 (some m2)] at hb
          refine ⟨h, rfl, ?_, ?_⟩
          · rw [hm, ← Option.some_inj.mp hb]
          · rw [← Option.some_inj.mp hb]
            simp
      | succ j' =>
        simp only [List.get?_cons_succ] at ha hb
        exact ih (some m2) j' ha hb

lemma handlerTrace_halt (hs : List Handler) (m : Option Message)
    (j : Nat) (a : Option Message) (h : Handler)
    (ha : (handlerTrace hs m).get? j = some a)
    (hh : hs.get? j = some h) (hnil : h a = none) :
    (handlerTrace hs m).length = j + 1 := by
  induction hs generalizing m j with
  | nil => simp [handlerTrace] at ha
  | cons h0 t ih =>
    rw [handlerTrace] at ha ⊢
    cases j with
    | zero =>
      simp only [List.get?_cons_zero, Option.some.injEq] at ha hh
      subst ha
      subst hh
      rw [hnil]
      rfl
    | succ j' =>
      simp only [List.get?_cons_succ] at ha hh
      cases hm : h0 m with
      | none =>
        rw [hm] at ha
        simp at ha
      | some m2 =>
        rw [hm] at ha
        show (m :: handlerTrace t (some m2)).length = j' + 1 + 1
        simp only [List.length_cons, Nat.add_right_cancel_iff]
        exact ih (some m2) j' ha hh

lemma handlerTrace_continue (hs : List Handler) (m : Option Message)
    (j : Nat) (a : Option Message) (h : Handler) (m2 : Message)
    (ha : (handlerTrace hs m).get? j = some a)
    (hh : hs.get? j = some h) (hres : h a = some m2)
    (hnext : j + 1 < hs.length) :
    (handlerTrace hs m).get? (j + 1) = some (some m2) := by
  induction hs generalizing m j with
  | nil => simp [handlerTrace] at ha
  | cons h0 t ih =>
    rw [handlerTrace] at ha ⊢
    cases j with
    | zero =>
      simp only [List.get?_cons_zero, Option.some.injEq] at ha hh
      subst ha
      subst hh
      rw [hres]
      simp only [List.length_cons, Nat.lt_add_right_iff_pos] at hnext
      cases t with
      | nil => simp at hnext
      | cons h1 t2 =>
        simp only [List.get?_cons_succ]
        exact handlerTrace_head h1 t2 (some m2)
    | succ j' =>
      simp only [List.get?_cons_succ] at ha hh
      simp only [List.length_cons, Nat.add_lt_add_iff_right] at hnext
      cases hm : h0 m with
      | none =>
        rw [hm] at ha
        simp at ha
      | some mm =>
        rw [hm] at ha
        simp only [List.get?_cons_succ]
        exact ih (some mm) j' ha hh hnext

lemma closeAll_eq_filterMap (cs : List Conn) :
    closeAll cs = cs.filterMap Conn.closeErr := by
  induction cs with
  | nil => rfl
  | cons c t ih =>
    rw [closeAll, List.filterMap_cons]
    cases c.closeErr with
    | none => exact ih
    | some e => rw [ih]

lemma scanPrio_decomp (tok rest : List Char) (hne : '>' ∉ tok) :
    scanPrio ('<' :: (tok ++ '>' :: rest)) =
      if 1 ≤ tok.length ∧ tok.length ≤ 3 then
        match goAtoi tok with
        | some v => if 0 ≤ v then some (v.toNat, rest) else none
        | none => none
      else none := by
  have hall : ∀ c ∈ tok, (c = '>' : Bool) = false := by
    intro c hc
    simp only [decide_eq_false_iff_not]
    intro h
    exact hne (h ▸ hc)
  have hidx : indexFunc (fun c => c = '>') (tok ++ '>' :: rest) =
      some tok.length :=
    indexFunc_append _ tok rest '>' hall (by simp)
  have htake : (tok ++ '>' :: rest).take tok.length = tok :=
    List.take_left tok _
  have hdrop : (tok ++ '>' :: rest).drop (tok.length + 1) = rest := by
    have hsplit : tok ++ '>' :: rest = (tok ++ ['>']) ++ rest := by simp
    have hl : (tok ++ ['>']).length = tok.length + 1 := by simp
    rw [hsplit, ← hl, List.drop_left]
  rw [scanPrio]
  simp only [hidx, htake, hdrop]

lemma scanPrio_not_lt (pkt : List Char) (h : pkt.head? ≠ some '<') :
    scanPrio pkt = none := by
  unfold scanPrio
  split
  · simp at h
  · rfl

lemma decimal_spec (n : Nat) :
    (∀ c ∈ decimal n, c.isDigit = true) ∧ digitsVal (decimal n) = n := by
  induction n using Nat.strong_induction_on with
  | _ n ih =>
    by_cases h : n < 10
    · rw [decimal, dif_pos h]
      constructor
      · intro c hc
        simp only [List.mem_singleton] at hc
        subst hc
        interval_cases n <;> decide
      · simp only [digitsVal, List.foldl]
        interval_cases n <;> decide
    · rw [decimal, dif_neg h]
      have hlt : n / 10 < n := Nat.div_lt_self (by omega) (by omega)
      obtain ⟨ihd, ihv⟩ := ih (n / 10) hlt
      have hm : n % 10 < 10 := Nat.mod_lt _ (by omega)
      constructor
      · intro c hc
        rcases List.mem_append.mp hc with hc | hc
        · exact ihd c hc
        · simp only [List.mem_singleton] at hc
          subst hc
          set k := n % 10 with hk
          interval_cases k <;> decide
      · rw [digitsVal, List.foldl_append]
        rw [digitsVal] at ihv
        rw [ihv]
        simp only [List.foldl_cons, List.foldl_nil]
        have htn : (Char.ofNat (48 + n % 10)).toNat = 48 + n % 10 := by
          set k := n % 10 with hk
          interval_cases k <;> decide
        rw [htn]
        omega

lemma decimal_length_bounds (n : Nat) (h : n < 1000) :
    1 ≤ (decimal n).length ∧ (decimal n).length ≤ 3 := by
  by_cases h1 : n < 10
  · rw [decimal, dif_pos h1]
    simp
  · rw [decimal, dif_neg h1]
    by_cases h2 : n / 10 < 10
    · rw [decimal, dif_pos h2]
      simp
    · rw [decimal, dif_neg h2]
      have h3 : n / 10 / 10 < 10 := by omega
      rw [decimal, dif_pos h3]
      simp

lemma goAtoi_decimal (n : Nat) : goAtoi (decimal n) = some (n : Int) := by
  obtain ⟨hd, hv⟩ := decimal_spec n
  have hne : decimal n ≠ [] := by
    by_cases h : n < 10
    · rw [decimal, dif_pos h]
      simp
    · rw [decimal, dif_neg h]
      simp
  cases hdn : decimal n with
  | nil => exact absurd hdn hne
  | cons c rest =>
    have hcd : c.isDigit = true := by
      apply hd
      rw [hdn]
      exact List.mem_cons_self _ _
    have hc1 : c ≠ '-' := by
      intro hcon
      subst hcon
      exact absurd hcd (by decide)
    have hc2 : c ≠ '+' := by
      intro hcon
      subst hcon
      exact absurd hcd (by decide)
    have hall : (c :: rest).all Char.isDigit = true := by
      rw [← hdn]
      exact List.all_eq_true.mpr fun x hx => hd x hx
    have hfin : goAtoi (c :: rest) = some (digitsVal (c :: rest) : Int) := by
      simp [goAtoi, hc1, hc2, hall]
    rw [hfin, ← hdn, hv]

lemma scanPrio_decimal (p : Nat) (rest : List Char) (hp : p < 1000) :
    scanPrio ('<' :: (decimal p ++ '>' :: rest)) = some (p, rest) := by
  have hne : '>' ∉ decimal p := by
    intro hmem
    have hdig := (decimal_spec p).1 '>' hmem
    exact absurd hdig (by decide)
  rw [scanPrio_decomp _ _ hne]
  obtain ⟨h1, h3⟩ := decimal_length_bounds p hp
  rw [if_pos ⟨h1, h3⟩, goAtoi_decimal]
  simp [Int.ofNat_nonneg p]

/-- A fixed arrival instant used by the concrete witnesses. -/
def t0 : GoTime := ⟨2025, 1, 2, 3, 4, 5, 0⟩

/-! ## Claim theorems -/

/-- C1 (amended): for every non-negative integer `p < 1000` (a 1-3 digit
decimal token — the code rejects longer tokens, so the spec's bound
`p < 2048` is wrong), decoding `<p>rest` yields a message with
`severity = p & 7` and `facility = p >> 3`, for every `rest`, arrival
time, source and allowed-rune set. -/
theorem C1_priority_encoding (p : Nat) (rest : List Char) (now : GoTime)
    (src : Addr) (allowed : List Char) (hp : p < 1000) :
    Option.map (fun m => (m.Severity, m.Facility))
        (decode ('<' :: (decimal p ++ '>' :: rest)) now src allowed) =
      some (p &&& 7, p >>> 3) := by
  have hs := scanPrio_decimal p rest hp
  simp [decode, stripPrio, hs, finishDecode]

/-- C1 witness: the amended theorem applied at `p = 5`, `rest = "x"`. -/
theorem C1_priority_encoding_witness :
    Option.map (fun m => (m.Severity, m.Facility))
        (decode ('<' :: (decimal 5 ++ '>' :: ['x'])) t0 0 []) =
      some (5 &&& 7, 5 >>> 3) :=
  C1_priority_encoding 5 ['x'] t0 0 [] (by decide)

/-- C1 counterexample: the claim as stated (all `p < 2048`) is false.
For `p = 1000` the token `1000` is 4 bytes long, so the `n < 5` check at
`server.go:128` rejects it, the prefix is not consumed, and the default
priority 13 yields severity 5 — while the claim demands
`severity = 1000 & 7 = 0`. -/
theorem C1_counterexample :
    Option.map Message.Severity (decode ("<1000>x".toList) t0 0 []) =
        some 5 ∧ 1000 &&& 7 = 0 := by
  constructor
  · rfl
  · decide

/-- C2 (code bug): the well-formed layout-B packet
`<13>Jan  2 15:04:05 myhost prog123: hello world\n` decodes to hostname
`"myhost"`, strict tag `"prog123"`, strict content starting with `:`,
loose tag1 `"prog123:"` and loose content1 `"hello world"`, exactly as
the claim states — but its `Timestamp` is the arrival wall clock `t0`,
not the header time `Jan 2 15:04:05` (year 0) that `parseStamp` extracts:
the short variable declarations `ts, err := time.Parse(...)` at
`server.go:146` and `:155` shadow the outer `ts` of `server.go:141`, so
the parsed header time is discarded and `m.Timestamp = ts` at
`server.go:167` stores `time.Now()`. -/
theorem C2_layoutB_decode_timestamp_bug :
    parseStamp ("Jan  2 15:04:05".toList) = some ⟨0, 1, 2, 15, 4, 5, 0⟩ ∧
    decode ("<13>Jan  2 15:04:05 myhost prog123: hello world\n".toList)
        t0 0 [] =
      some { Source := 0, Time := t0, Severity := 5, Facility := 1,
             Timestamp := some t0,
             Hostname := some ("myhost".toList),
             Tag := "prog123".toList,
             Content := ": hello world".toList,
             Tag1 := "prog123:".toList,
             Content1 := "hello world".toList } ∧
    (some t0 : Option GoTime) ≠ some ⟨0, 1, 2, 15, 4, 5, 0⟩ := by
  refine ⟨rfl, rfl, by decide⟩

/-- C5: every decoded message has severity in `[0,7]`, and when no
priority prefix is recognized (`hasPrio = false`, i.e. `scanPrio` yields
nothing) the default priority 13 gives severity 5 and facility 1. -/
theorem C5_severity_range_and_default (pkt : List Char) (now : GoTime)
    (src : Addr) (allowed : List Char) (m : Message)
    (h : decode pkt now src allowed = some m) :
    m.Severity ≤ 7 ∧
      (scanPrio pkt = none → m.Severity = 5 ∧ m.Facility = 1) := by
  cases pkt with
  | nil => simp [decode] at h
  | cons c t =>
    have hm : m = finishDecode now src (stripPrio (c :: t)).1
        (stripPrio (c :: t)).2.1 (stripPrio (c :: t)).2.2 allowed := by
      simpa [decode] using h.symm
    subst hm
    constructor
    · show (stripPrio (c :: t)).2.1 &&& 7 ≤ 7
      exact Nat.and_le_right
    · intro hnone
      have hsp : stripPrio (c :: t) = (false, 13, c :: t) := by
        simp [stripPrio, hnone]
      rw [hsp]
      refine ⟨?_, ?_⟩
      · show (13 : Nat) &&& 7 = 5
        decide
      · show (13 : Nat) >>> 3 = 1
        decide

/-- C5 witness: the theorem applied to the prefix-free packet `"a"`,
which decodes with severity 5 and facility 1. -/
theorem C5_severity_range_and_default_witness :
    (Message.mk 0 t0 5 1 none none [] ['a'] [] ['a']).Severity ≤ 7 ∧
      (scanPrio ['a'] = none →
        (Message.mk 0 t0 5 1 none none [] ['a'] [] ['a']).Severity = 5 ∧
        (Message.mk 0 t0 5 1 none none [] ['a'] [] ['a']).Facility = 1) :=
  C5_severity_range_and_default ['a'] t0 0 [] _ rfl

/-- C6 counterexample: the claim says the prefix is consumed ONLY for a
token of 1-3 unsigned decimal digits and that otherwise the default
priority 13 (facility 1) applies.  But `strconv.Atoi` accepts a leading
sign: on `"<-0>x"` the token `-0` parses to 0 ≥ 0, the prefix IS
consumed, and the decoded message has facility 0 (not 1) and content
`"x"` (not `"<-0>x"`). -/
theorem C6_counterexample :
    Option.map (fun m => (m.Facility, m.Content))
        (decode ("<-0>x".toList) t0 0 []) = some (0, ['x']) ∧
      (0 : Nat) ≠ 1 :=
  ⟨rfl, by decide⟩

/-- C6 (amended): a priority prefix is recognized exactly when the first
byte is `<`, the first following `>` occurs within the next 4 bytes
(token length 1-3), and the token parses under Go's `strconv.Atoi` —
which also allows a single leading `+` or `-` sign — to a non-negative
value (so `"+5"` and `"-0"` are also accepted); in every other case
nothing is consumed and the default priority 13 applies. -/
theorem C6_prefix_recognition :
    (∀ pkt, pkt.head? ≠ some '<' → scanPrio pkt = none) ∧
    (∀ tl, indexFunc (fun c => c = '>') tl = none →
      scanPrio ('<' :: tl) = none) ∧
    (∀ tok rest, '>' ∉ tok →
      scanPrio ('<' :: (tok ++ '>' :: rest)) =
        if 1 ≤ tok.length ∧ tok.length ≤ 3 then
          match goAtoi tok with
          | some v => if 0 ≤ v then some (v.toNat, rest) else none
          | none => none
        else none) := by
  refine ⟨scanPrio_not_lt, ?_, scanPrio_decomp⟩
  intro tl h
  rw [scanPrio, h]

/-- C6 witness: the recognition theorem applied to the signed token
`"+5"` — accepted with priority 5 — exercising the amended clause. -/
theorem C6_prefix_recognition_witness :
    scanPrio ('<' :: (['+', '5'] ++ '>' :: ['x'])) = some (5, ['x']) := by
  rw [C6_prefix_recognition.2.2 ['+', '5'] ['x'] (by decide)]
  decide

/-- C7: dispatch is short-circuiting.  `handlerTrace` records the input
of every handler invocation the `server.go:97-104` loop executes, in
chain order: (i) at most one invocation per handler; (ii) each invoked
handler receives exactly the previous handler's return value; (iii) as
soon as a handler returns nil, the trace ends with it — no later handler
is invoked for that message. -/
theorem C7_short_circuit (hs : List Handler) (m0 : Option Message) :
    (handlerTrace hs m0).length ≤ hs.length ∧
    (∀ j a b, (handlerTrace hs m0).get? j = some a →
      (handlerTrace hs m0).get? (j + 1) = some b →
      ∃ h, hs.get? j = some h ∧ h a = b) ∧
    (∀ j a h, (handlerTrace hs m0).get? j = some a →
      hs.get? j = some h → h a = none →
      (handlerTrace hs m0).length = j + 1) := by
  refine ⟨handlerTrace_length_le hs m0, ?_, ?_⟩
  · intro j a b ha hb
    obtain ⟨h, h1, h2, _⟩ := handlerTrace_succ hs m0 j a b ha hb
    exact ⟨h, h1, h2⟩
  · intro j a h ha hh hnil
    exact handlerTrace_halt hs m0 j a h ha hh hnil

/-- A fixed message used by the concrete dispatch witnesses. -/
def msgA : Message := ⟨0, t0, 5, 1, none, none, [], ['a'], [], ['a']⟩

/-- C7 witness: a three-handler chain whose first handler returns nil —
exactly one invocation happens, so the second and third handlers are
never invoked for that message. -/
theorem C7_short_circuit_witness :
    (handlerTrace
      [(fun _ => none : Handler), (fun x => x), (fun x => x)]
      (some msgA)).length = 0 + 1 :=
  (C7_short_circuit
    [(fun _ => none : Handler), (fun x => x), (fun x => x)]
    (some msgA)).2.2 0 (some msgA) (fun _ => none) rfl rfl rfl

/-- C8: `Shutdown` sets the shutdown flag, empties the endpoint and
handler lists, routes exactly the close failures of the registered
endpoints (in order) to the fatal sink, and sends the nil termination
signal through the handler chain — the executed invocations being the
chain-order, short-circuiting `handlerTrace` of the handlers on `none`. -/
theorem C8_shutdown_behaviour (s : Server) :
    (Shutdown s).1.shutdown = true ∧
    (Shutdown s).1.conns = [] ∧
    (Shutdown s).1.handlers = [] ∧
    (Shutdown s).2.1 = s.conns.filterMap Conn.closeErr ∧
    (Shutdown s).2.2 = handlerTrace s.handlers none ∧
    (∀ j a h, ((Shutdown s).2.2).get? j = some a →
      s.handlers.get? j = some h → h a = none →
      ((Shutdown s).2.2).length = j + 1) := by
  refine ⟨rfl, rfl, rfl, closeAll_eq_filterMap s.conns, rfl, ?_⟩
  intro j a h ha hh hnil
  exact handlerTrace_halt s.handlers none j a h ha hh hnil

/-- A concrete server for the shutdown witness: two of its three
endpoints fail to close (errors 7 and 9), and its second handler returns
nil in response to the termination signal. -/
def srvW : Server :=
  ⟨[⟨some 7⟩, ⟨none⟩, ⟨some 9⟩],
   [(fun _ => some msgA : Handler), (fun _ => none), (fun x => x)],
   false⟩

/-- C8 witness: shutting down `srvW` sets the flag, reports exactly the
errors 7 and 9 to the fatal sink, and the termination signal stops after
the second handler (which returned nil). -/
theorem C8_shutdown_behaviour_witness :
    (Shutdown srvW).1.shutdown = true ∧
    (Shutdown srvW).2.1 = [7, 9] ∧
    ((Shutdown srvW).2.2).length = 1 + 1 := by
  refine ⟨(C8_shutdown_behaviour srvW).1, ?_, ?_⟩
  · rfl
  · exact (C8_shutdown_behaviour srvW).2.2.2.2.2 1 (some msgA)
      (fun _ => none) rfl rfl rfl

/-- C9: the message body is first stripped of its trailing NUL/CR/LF
bytes (the removed suffix is all NUL/CR/LF and the trimmed body no
longer ends in one), then the strict split cuts the trimmed body at the
first rune that is neither a letter, a digit, nor in the allowed-rune
set: the prefix of allowed runes is the tag and the remainder (from the
delimiting rune, inclusive) is the content; if every rune of the trimmed
body is allowed, the tag is empty and the whole trimmed body is the
content. -/
theorem C9_trim_and_strict_split (allowed : List Char) (body : List Char) :
    (∃ suf, body = trimRightFun isNulCrLf body ++ suf ∧
      (∀ c ∈ suf, isNulCrLf c = true)) ∧
    (∀ c, (trimRightFun isNulCrLf body).getLast? = some c →
      isNulCrLf c = false) ∧
    ((∃ c ∈ trimRightFun isNulCrLf body, isNotAlnum allowed c = true) →
      strictSplit allowed (trimRightFun isNulCrLf body) =
        ((trimRightFun isNulCrLf body).takeWhile (isAlnumOk allowed),
         (trimRightFun isNulCrLf body).dropWhile (isAlnumOk allowed))) ∧
    ((∀ c ∈ trimRightFun isNulCrLf body, isNotAlnum allowed c = false) →
      strictSplit allowed (trimRightFun isNulCrLf body) =
        ([], trimRightFun isNulCrLf body)) := by
  obtain ⟨suf, h1, h2, h3⟩ := trimRightFun_decomp isNulCrLf body
  exact ⟨⟨suf, h1, h2⟩, h3, strictSplit_of_exists allowed _,
    strictSplit_of_forall allowed _⟩

/-- C9 witness: the spec's own example — a body ending in
`"text\r\n\0"` trims to `"text"`, which is all-alphanumeric, so the tag
is empty and the content is exactly `"text"`. -/
theorem C9_trim_and_strict_split_witness :
    trimRightFun isNulCrLf ("text\r\n\x00".toList) = "text".toList ∧
    strictSplit [] (trimRightFun isNulCrLf ("text\r\n\x00".toList)) =
      ([], trimRightFun isNulCrLf ("text\r\n\x00".toList)) := by
  refine ⟨rfl, (C9_trim_and_strict_split [] ("text\r\n\x00".toList)).2.2.2 ?_⟩
  decide

/-- C10: dispatching the nil termination signal still invokes the first
handler (with nil input), and nil halts dispatch only when a handler
returns it: (ii) the input of any subsequent invocation is the previous
handler's non-nil return, and (iii) whenever an invoked handler answers
with a non-nil message and a next handler exists, that next handler IS
invoked — the trace has an entry at the next position — and it receives
exactly that non-nil message. -/
theorem C10_nil_dispatch (hs : List Handler) (hne : hs ≠ []) :
    (handlerTrace hs none).get? 0 = some none ∧
    (∀ j a b, (handlerTrace hs none).get? j = some a →
      (handlerTrace hs none).get? (j + 1) = some b →
      ∃ h, hs.get? j = some h ∧ h a = b ∧ b ≠ none) ∧
    (∀ j a h m2, (handlerTrace hs none).get? j = some a →
      hs.get? j = some h → h a = some m2 → j + 1 < hs.length →
      (handlerTrace hs none).get? (j + 1) = some (some m2)) := by
  refine ⟨?_, ?_, ?_⟩
  · cases hs with
    | nil => exact absurd rfl hne
    | cons h t => exact handlerTrace_head h t none
  · intro j a b ha hb
    exact handlerTrace_succ hs none j a b ha hb
  · intro j a h m2 ha hh hres hnext
    exact handlerTrace_continue hs none j a h m2 ha hh hres hnext

/-- C10 witness: a chain whose first handler answers the nil signal with
a non-nil message — the first handler is invoked with nil, and by the
continuation clause the second handler is actually invoked and receives
that non-nil message. -/
theorem C10_nil_dispatch_witness :
    (handlerTrace [(fun _ => some msgA : Handler), fun x => x]
        none).get? 0 = some none ∧
    (handlerTrace [(fun _ => some msgA : Handler), fun x => x]
        none).get? 1 = some (some msgA) := by
  have hc := C10_nil_dispatch
    [(fun _ => some msgA : Handler), fun x => x] (by simp)
  exact ⟨hc.1, hc.2.2 0 none (fun _ => some msgA) msgA hc.1 rfl rfl
    (by decide)⟩

end Syslog
